import Mathlib

/-!
Verification of the intcode virtual machine of this repository.

The decoder (`Instruction.parse` and friends), the program-text parser
(`Program.from_str`) and the `is_terminated` peek are embedded from
`src/intcode/src/lib.rs`.  The stepping core that the drivers `day13` and
`day15` call (the `State` values `AwaitingInput`, `Crashed`, `Output`,
`OutputAwaitingInput`, and the grow-on-demand / underflow-checked memory
access behind them) is code of the repository whose source file is not
present under `src/`; those definitions are modelled from the spec and say
so in their doc comments.

Rust's `i64::rem_euclid` is `Int.emod`; Rust's `/` on `i64` truncates
toward zero and is `Int.tdiv`.
-/

/-- Parameter addressing mode, from `enum ParameterMode` in
`src/intcode/src/lib.rs`. -/
inductive ParameterMode
  | Positional
  | Immediate
  | Relative
deriving DecidableEq

/-- Decoded instruction, from `enum Instruction` in `src/intcode/src/lib.rs`. -/
inductive Instruction
  | Halt
  | Add (m1 m2 m3 : ParameterMode)
  | Mult (m1 m2 m3 : ParameterMode)
  | Input (m1 : ParameterMode)
  | Output (m1 : ParameterMode)
  | JumpIfTrue (m1 m2 : ParameterMode)
  | JumpIfFalse (m1 m2 : ParameterMode)
  | LessThan (m1 m2 m3 : ParameterMode)
  | Equals (m1 m2 m3 : ParameterMode)
  | RelativeBaseAdjust (m1 : ParameterMode)
deriving DecidableEq

/-- `ParameterMode::of`, from the source: digit 0 is Positional, 1 is
Immediate, 2 is Relative, anything else fails. -/
def ParameterMode.of (k : Int) : Option ParameterMode :=
  if k = 0 then some ParameterMode.Positional
  else if k = 1 then some ParameterMode.Immediate
  else if k = 2 then some ParameterMode.Relative
  else none

/-- `Instruction::parse_one`, from the source. -/
def Instruction.parse_one (abc : Int) : Option ParameterMode :=
  ParameterMode.of (abc.emod 10)

/-- `Instruction::parse_two`, from the source. -/
def Instruction.parse_two (abc : Int) : Option (ParameterMode × ParameterMode) :=
  let c := abc.emod 10
  let b := ((abc.tdiv 10).emod 10)
  (ParameterMode.of c).bind fun m1 =>
    (ParameterMode.of b).map fun m2 => (m1, m2)

/-- `Instruction::parse_three`, from the source. -/
def Instruction.parse_three (abc : Int) :
    Option (ParameterMode × ParameterMode × ParameterMode) :=
  let c := abc.emod 10
  let b := ((abc.tdiv 10).emod 10)
  let a := ((abc.tdiv 100).emod 10)
  (ParameterMode.of c).bind fun m1 =>
    (ParameterMode.of b).bind fun m2 =>
      (ParameterMode.of a).map fun m3 => (m1, m2, m3)

/-- `Instruction::parse`, from the source: the opcode is
`abcde.rem_euclid(100)` and the mode digits come from `abcde / 100`. -/
def Instruction.parse (abcde : Int) : Option Instruction :=
  let op := abcde.emod 100
  if op = 99 then some Instruction.Halt
  else if op = 1 then
    (Instruction.parse_three (abcde.tdiv 100)).map fun m => Instruction.Add m.1 m.2.1 m.2.2
  else if op = 2 then
    (Instruction.parse_three (abcde.tdiv 100)).map fun m => Instruction.Mult m.1 m.2.1 m.2.2
  else if op = 3 then
    (Instruction.parse_one (abcde.tdiv 100)).map fun m1 => Instruction.Input m1
  else if op = 4 then
    (Instruction.parse_one (abcde.tdiv 100)).map fun m1 => Instruction.Output m1
  else if op = 5 then
    (Instruction.parse_two (abcde.tdiv 100)).map fun m => Instruction.JumpIfTrue m.1 m.2
  else if op = 6 then
    (Instruction.parse_two (abcde.tdiv 100)).map fun m => Instruction.JumpIfFalse m.1 m.2
  else if op = 7 then
    (Instruction.parse_three (abcde.tdiv 100)).map fun m => Instruction.LessThan m.1 m.2.1 m.2.2
  else if op = 8 then
    (Instruction.parse_three (abcde.tdiv 100)).map fun m => Instruction.Equals m.1 m.2.1 m.2.2
  else if op = 9 then
    (Instruction.parse_one (abcde.tdiv 100)).map fun m1 => Instruction.RelativeBaseAdjust m1
  else none

/-- Value of a list of decimal digit characters, most significant first. -/
def digitsVal (cs : List Char) : Nat :=
  cs.foldl (fun acc c => 10 * acc + (c.toNat - 48)) 0

def i64Min : Int := -(2 ^ 63)

def i64Max : Int := 2 ^ 63 - 1

/-- Digit run with sign and `i64` range check: the shared tail of Rust
`i64::from_str_radix(s, 10)` after the optional sign. -/
def parseDigitsRange (cs : List Char) (sign : Int) : Option Int :=
  if cs ≠ [] ∧ cs.all Char.isDigit then
    if i64Min ≤ sign * (digitsVal cs : Int) ∧ sign * (digitsVal cs : Int) ≤ i64Max then
      some (sign * (digitsVal cs : Int))
    else none
  else none

/-- Model of Rust `i64::from_str_radix(s, 10).ok()`: an optional single
leading `+` or `-`, then at least one ASCII digit and nothing else; the
value must fit in `i64`, otherwise the parse fails. -/
def parseRadix10 (s : String) : Option Int :=
  match s.data with
  | [] => none
  | c :: cs =>
    if c = '+' then parseDigitsRange cs 1
    else if c = '-' then parseDigitsRange cs (-1)
    else parseDigitsRange (c :: cs) 1

/-- The machine state of `struct Program` in `src/intcode/src/lib.rs`.
The `crashed` flag is modelled from the spec: a decode or addressing
failure is terminal for the instance ("Crashed is permanent"), so the
machine must remember that it crashed. -/
structure Program where
  memory : List Int
  instruction_pointer : Nat
  relative_base : Int
  return_code : Option Int
  input_buffer : List Int
  crashed : Bool
deriving DecidableEq

/-- `Program::from_str`, from the source: split the line on commas,
keep the tokens `i64::from_str_radix` accepts, and start with pointer 0,
relative base 0, no return code and an empty input queue. -/
def Program.from_str (line : String) : Program :=
  { memory := (line.splitOn ",").filterMap parseRadix10
    instruction_pointer := 0
    relative_base := 0
    return_code := none
    input_buffer := []
    crashed := false }

/-- `Program::read_input`, from the source: push one value at the tail of
the input queue. -/
def Program.read_input (p : Program) (input : Int) : Program :=
  { p with input_buffer := p.input_buffer ++ [input] }

/-- `Program::current_instruction`, from the source: decode the word at the
instruction pointer; a pointer beyond memory or an undecodable word is a
decode failure (`none`). -/
def Program.current_instruction (p : Program) : Option Instruction :=
  (p.memory.get? p.instruction_pointer).bind Instruction.parse

/-- `Program::is_terminated`, from the source: true only when the current
instruction decodes as Halt. -/
def Program.is_terminated (p : Program) : Bool :=
  match p.current_instruction with
  | some Instruction.Halt => true
  | _ => false

/-- Modelled from the spec: the single grow helper — any access at an
address at or beyond the current length first pads the memory with zeros up
to and including that address. -/
def growTo (memory : List Int) (idx : Nat) : List Int :=
  if idx < memory.length then memory
  else memory ++ List.replicate (idx + 1 - memory.length) 0

/-- Modelled from the spec: read the cell at `a`, growing on demand;
returns the machine with the (possibly grown) memory and the value. -/
def Program.readCell (p : Program) (a : Nat) : Program × Int :=
  ({ p with memory := growTo p.memory a }, (growTo p.memory a).getD a 0)

/-- Modelled from the spec: write `v` at `a`, growing on demand. -/
def Program.writeCell (p : Program) (a : Nat) (v : Int) : Program :=
  { p with memory := (growTo p.memory a).set a v }

/-- Error taxonomy of the spec for operand resolution: a Positional or
Relative parameter whose resolved address is negative underflows. -/
inductive VmError
  | UnderflowError
deriving DecidableEq

/-- Modelled from the spec: the address a parameter resolves to.  The
parameter's own word sits at `idx`; Positional takes that word as the
address, Relative adds the relative base, Immediate reads `idx` itself.
`none` means the address would be negative (underflow). -/
def Program.resolveAddr (p : Program) (idx : Nat) (mode : ParameterMode) : Option Nat :=
  let w := (growTo p.memory idx).getD idx 0
  match mode with
  | ParameterMode.Immediate => some idx
  | ParameterMode.Positional => if w < 0 then none else some w.toNat
  | ParameterMode.Relative =>
      if p.relative_base + w < 0 then none else some (p.relative_base + w).toNat

/-- Modelled from the spec: `Program::get` — read one operand.  The operand
word itself and the resolved cell are both read through the growing
`readCell`; a negative resolved address is an `UnderflowError`. -/
def Program.get (p : Program) (idx : Nat) (mode : ParameterMode) :
    Except VmError (Program × Int) :=
  let pr := p.readCell idx
  match mode with
  | ParameterMode.Immediate => Except.ok pr
  | ParameterMode.Positional =>
      if pr.2 < 0 then Except.error VmError.UnderflowError
      else Except.ok (pr.1.readCell pr.2.toNat)
  | ParameterMode.Relative =>
      if pr.1.relative_base + pr.2 < 0 then Except.error VmError.UnderflowError
      else Except.ok (pr.1.readCell (pr.1.relative_base + pr.2).toNat)

/-- Modelled from the spec: `Program::set` — write one operand.  Immediate
mode is never a valid write target; the source falls back to writing at the
word's own index, which we keep. -/
def Program.set (p : Program) (idx : Nat) (value : Int) (mode : ParameterMode) :
    Except VmError Program :=
  let pr := p.readCell idx
  match mode with
  | ParameterMode.Positional =>
      if pr.2 < 0 then Except.error VmError.UnderflowError
      else Except.ok (pr.1.writeCell pr.2.toNat value)
  | ParameterMode.Relative =>
      if pr.1.relative_base + pr.2 < 0 then Except.error VmError.UnderflowError
      else Except.ok (pr.1.writeCell (pr.1.relative_base + pr.2).toNat value)
  | ParameterMode.Immediate => Except.ok (pr.1.writeCell idx value)

/-- Modelled from the spec: the machine states of `enum State` as the
drivers `day13`/`day15` consume them; the source file defining this
variant set is missing from `src/`. -/
inductive State
  | Running
  | Output (x : Int)
  | OutputAwaitingInput (x : Int)
  | AwaitingInput
  | Done
  | Crashed
deriving DecidableEq

/-- Modelled from the spec: mark the machine as crashed; terminal. -/
def crash (p : Program) : Program := { p with crashed := true }

/-- Modelled from the spec: advance the instruction pointer by `k`. -/
def advance (p : Program) (k : Nat) : Program :=
  { p with instruction_pointer := p.instruction_pointer + k }

/-- Modelled from the spec: the shared body of the four 3-parameter
arithmetic instructions — read two operands, write `f` of them through the
third parameter; `none` when an operand underflows. -/
def Program.performBin (p : Program) (f : Int → Int → Int)
    (m1 m2 m3 : ParameterMode) : Option Program :=
  match p.get (p.instruction_pointer + 1) m1 with
  | Except.error _ => none
  | Except.ok pv1 =>
    match pv1.1.get (pv1.1.instruction_pointer + 2) m2 with
    | Except.error _ => none
    | Except.ok pv2 =>
      match pv2.1.set (pv2.1.instruction_pointer + 3) (f pv1.2 pv2.2) m3 with
      | Except.error _ => none
      | Except.ok p3 => some p3

/-- Modelled from the spec: `perform_jump_if` — read the condition; when it
matches the polarity, set the pointer to the jump target (Crashed when the
target is negative); otherwise report that no jump happened. -/
def Program.performJump (p : Program) (nonzero : Bool) (m1 m2 : ParameterMode) :
    Program × State :=
  match p.get (p.instruction_pointer + 1) m1 with
  | Except.error _ => (crash p, State.Crashed)
  | Except.ok pv1 =>
    if (decide (pv1.2 ≠ 0)) = nonzero then
      match pv1.1.get (pv1.1.instruction_pointer + 2) m2 with
      | Except.error _ => (crash p, State.Crashed)
      | Except.ok pv2 =>
        if pv2.2 < 0 then (crash p, State.Crashed)
        else ({ pv2.1 with instruction_pointer := pv2.2.toNat }, State.Running)
    else (advance pv1.1 3, State.Running)

/-- Modelled from the spec: `Program::step` — one decode-execute cycle.
Once crashed, every call reports Crashed without mutation.  A decode
failure or an operand underflow crashes the machine and keeps the pre-step
registers and memory.  An empty input queue at an Input instruction is a
suspension: the instruction is not consumed and nothing changes.  Output
advances by 2, records the value as the return code and looks ahead: when
the new current instruction is an Input, it reports
`OutputAwaitingInput`. -/
def Program.step (p : Program) : Program × State :=
  if p.crashed then (p, State.Crashed)
  else
    match p.current_instruction with
    | none => (crash p, State.Crashed)
    | some Instruction.Halt => (p, State.Done)
    | some (Instruction.Add m1 m2 m3) =>
      match p.performBin (fun a b => a + b) m1 m2 m3 with
      | none => (crash p, State.Crashed)
      | some p3 => (advance p3 4, State.Running)
    | some (Instruction.Mult m1 m2 m3) =>
      match p.performBin (fun a b => a * b) m1 m2 m3 with
      | none => (crash p, State.Crashed)
      | some p3 => (advance p3 4, State.Running)
    | some (Instruction.Input m1) =>
      match p.input_buffer with
      | [] => (p, State.AwaitingInput)
      | x :: rest =>
        match Program.set { p with input_buffer := rest } (p.instruction_pointer + 1) x m1 with
        | Except.error _ => (crash p, State.Crashed)
        | Except.ok p2 => (advance p2 2, State.Running)
    | some (Instruction.Output m1) =>
      match p.get (p.instruction_pointer + 1) m1 with
      | Except.error _ => (crash p, State.Crashed)
      | Except.ok pv =>
        match (advance { pv.1 with return_code := some pv.2 } 2).current_instruction with
        | some (Instruction.Input _) =>
          (advance { pv.1 with return_code := some pv.2 } 2, State.OutputAwaitingInput pv.2)
        | _ => (advance { pv.1 with return_code := some pv.2 } 2, State.Output pv.2)
    | some (Instruction.JumpIfTrue m1 m2) => p.performJump true m1 m2
    | some (Instruction.JumpIfFalse m1 m2) => p.performJump false m1 m2
    | some (Instruction.LessThan m1 m2 m3) =>
      match p.performBin (fun a b => if a < b then 1 else 0) m1 m2 m3 with
      | none => (crash p, State.Crashed)
      | some p3 => (advance p3 4, State.Running)
    | some (Instruction.Equals m1 m2 m3) =>
      match p.performBin (fun a b => if a = b then 1 else 0) m1 m2 m3 with
      | none => (crash p, State.Crashed)
      | some p3 => (advance p3 4, State.Running)
    | some (Instruction.RelativeBaseAdjust m1) =>
      match p.get (p.instruction_pointer + 1) m1 with
      | Except.error _ => (crash p, State.Crashed)
      | Except.ok pv =>
        (advance { pv.1 with relative_base := pv.1.relative_base + pv.2 } 2, State.Running)

/-- Modelled from the spec: the run-to-completion loop — keep stepping,
collecting every Output / OutputAwaitingInput value, until Done, Crashed or
AwaitingInput; `fuel` bounds the number of steps taken. -/
def Program.run_loop : Program → Nat → List Int → Program × List Int
  | p, 0, outs => (p, outs)
  | p, Nat.succ n, outs =>
    match p.step with
    | (p1, State.Running) => p1.run_loop n outs
    | (p1, State.Output v) => p1.run_loop n (outs ++ [v])
    | (p1, State.OutputAwaitingInput v) => p1.run_loop n (outs ++ [v])
    | (p1, _) => (p1, outs)

/-- Modelled from the spec: `Program::run` — seed the queue with the given
inputs, drive the machine, and return the final machine, the outputs in
order, and the last output value observed (the return code). -/
def Program.run (p : Program) (inputs : List Int) (fuel : Nat) :
    Program × List Int × Option Int :=
  let p0 := inputs.foldl Program.read_input p
  let r := p0.run_loop fuel []
  (r.1, r.2, r.1.return_code)

/-- The output value a step's state hands to the driver, if any. -/
def State.emitted : State → Option Int
  | State.Output v => some v
  | State.OutputAwaitingInput v => some v
  | _ => none

/-- The classifier of the four 3-parameter arithmetic instructions and
their operator, used to state frame properties uniformly. -/
def arithOp : Instruction →
    Option ((Int → Int → Int) × ParameterMode × ParameterMode × ParameterMode)
  | Instruction.Add m1 m2 m3 => some ((fun a b => a + b), m1, m2, m3)
  | Instruction.Mult m1 m2 m3 => some ((fun a b => a * b), m1, m2, m3)
  | Instruction.LessThan m1 m2 m3 => some ((fun a b => if a < b then 1 else 0), m1, m2, m3)
  | Instruction.Equals m1 m2 m3 => some ((fun a b => if a = b then 1 else 0), m1, m2, m3)
  | _ => none

/-- Token shape as the spec words it: a base-10 integer, optionally
prefixed with a single minus sign. -/
def specToken (s : String) : Option Int :=
  match s.data with
  | [] => none
  | c :: cs =>
    if c = '-' then
      if cs ≠ [] ∧ cs.all Char.isDigit then some (-(digitsVal cs : Int)) else none
    else
      if (c :: cs).all Char.isDigit then some ((digitsVal (c :: cs) : Int)) else none

example :
    Program.step ⟨[3, 0, 99], 0, 0, none, [], false⟩ =
      (⟨[3, 0, 99], 0, 0, none, [], false⟩, State.AwaitingInput) := by
  decide

example :
    Program.step ⟨[104, 7, 3, 0, 99], 0, 0, none, [], false⟩ =
      (⟨[104, 7, 3, 0, 99], 2, 0, some 7, [], false⟩, State.OutputAwaitingInput 7) := by
  decide

example : Instruction.parse (-1) = some Instruction.Halt := by decide

example : parseRadix10 "-12" = some (-12) := by decide

example : specToken "-12" = some (-12) := by decide

example : parseRadix10 "x" = none := by decide

example :
    (Program.step ⟨[1101, 2, 3, 0, 99], 0, 0, none, [], false⟩).1.memory
      = [5, 2, 3, 0, 99] := by decide

lemma growTo_getD (mem : List Int) (a i : Nat) :
    (growTo mem a).getD i 0 = mem.getD i 0 := by
  unfold growTo
  split
  · rfl
  · rename_i h
    rw [List.getD_eq_getElem?_getD, List.getD_eq_getElem?_getD, List.getElem?_append]
    split
    · rfl
    · rename_i hi
      have hlen : mem.length ≤ i := le_of_not_lt hi
      rw [List.getElem?_replicate, List.getElem?_eq_none hlen]
      split <;> rfl

lemma growTo_length (mem : List Int) (a : Nat) :
    (growTo mem a).length = max mem.length (a + 1) := by
  unfold growTo
  split
  · rename_i h
    omega
  · rename_i h
    rw [List.length_append, List.length_replicate]
    omega

lemma le_length_growTo (mem : List Int) (a : Nat) :
    mem.length ≤ (growTo mem a).length := by
  rw [growTo_length]; omega

lemma lt_length_growTo (mem : List Int) (a : Nat) :
    a < (growTo mem a).length := by
  rw [growTo_length]; omega

lemma getD_set_self {l : List Int} {a : Nat} (h : a < l.length) (v : Int) :
    (l.set a v).getD a 0 = v := by
  rw [List.getD_eq_getElem?_getD, List.getElem?_set_self h]
  rfl

lemma getD_set_ne {l : List Int} {a j : Nat} (h : a ≠ j) (v : Int) :
    (l.set a v).getD j 0 = l.getD j 0 := by
  rw [List.getD_eq_getElem?_getD, List.getElem?_set_ne h, ← List.getD_eq_getElem?_getD]

lemma resolveAddr_congr {p q : Program} (hrb : q.relative_base = p.relative_base)
    (hm : ∀ j, q.memory.getD j 0 = p.memory.getD j 0) (idx : Nat) (m : ParameterMode) :
    q.resolveAddr idx m = p.resolveAddr idx m := by
  unfold Program.resolveAddr
  rw [growTo_getD, growTo_getD, hm idx, hrb]

lemma get_ok {p q : Program} {idx : Nat} {m : ParameterMode} {v : Int}
    (h : p.get idx m = Except.ok (q, v)) :
    q.instruction_pointer = p.instruction_pointer ∧
    q.relative_base = p.relative_base ∧
    q.return_code = p.return_code ∧
    q.input_buffer = p.input_buffer ∧
    q.crashed = p.crashed ∧
    (∀ j, q.memory.getD j 0 = p.memory.getD j 0) ∧
    p.memory.length ≤ q.memory.length ∧
    idx < q.memory.length ∧
    ∃ a, p.resolveAddr idx m = some a ∧ v = p.memory.getD a 0 ∧ a < q.memory.length := by
  cases m with
  | Immediate =>
    simp only [Program.get, Program.readCell] at h
    rw [Except.ok.injEq, Prod.mk.injEq] at h
    obtain ⟨h1, h2⟩ := h
    subst h1
    subst h2
    refine ⟨rfl, rfl, rfl, rfl, rfl, fun j => growTo_getD _ _ _, le_length_growTo _ _,
      lt_length_growTo _ _, idx, rfl, growTo_getD p.memory idx idx, lt_length_growTo _ _⟩
  | Positional =>
    simp only [Program.get, Program.readCell] at h
    split at h
    · cases h
    · rename_i hw
      rw [Except.ok.injEq, Prod.mk.injEq] at h
      obtain ⟨h1, h2⟩ := h
      subst h1
      subst h2
      refine ⟨rfl, rfl, rfl, rfl, rfl, ?_, ?_, ?_, ?_⟩
      · intro j
        rw [growTo_getD, growTo_getD]
      · exact le_trans (le_length_growTo _ _) (le_length_growTo _ _)
      · exact lt_of_lt_of_le (lt_length_growTo _ _) (le_length_growTo _ _)
      · refine ⟨((growTo p.memory idx).getD idx 0).toNat, ?_, ?_, ?_⟩
        · simp only [Program.resolveAddr]
          rw [if_neg hw]
        · rw [growTo_getD, growTo_getD]
        · exact lt_length_growTo _ _
  | Relative =>
    simp only [Program.get, Program.readCell] at h
    split at h
    · cases h
    · rename_i hw
      rw [Except.ok.injEq, Prod.mk.injEq] at h
      obtain ⟨h1, h2⟩ := h
      subst h1
      subst h2
      refine ⟨rfl, rfl, rfl, rfl, rfl, ?_, ?_, ?_, ?_⟩
      · intro j
        rw [growTo_getD, growTo_getD]
      · exact le_trans (le_length_growTo _ _) (le_length_growTo _ _)
      · exact lt_of_lt_of_le (lt_length_growTo _ _) (le_length_growTo _ _)
      · refine ⟨(p.relative_base + (growTo p.memory idx).getD idx 0).toNat, ?_, ?_, ?_⟩
        · simp only [Program.resolveAddr]
          rw [if_neg hw]
        · rw [growTo_getD, growTo_getD]
        · exact lt_length_growTo _ _

lemma set_ok {p q : Program} {idx : Nat} {v : Int} {m : ParameterMode}
    (h : p.set idx v m = Except.ok q) :
    q.instruction_pointer = p.instruction_pointer ∧
    q.relative_base = p.relative_base ∧
    q.return_code = p.return_code ∧
    q.input_buffer = p.input_buffer ∧
    q.crashed = p.crashed ∧
    p.memory.length ≤ q.memory.length ∧
    idx < q.memory.length ∧
    ∃ a, p.resolveAddr idx m = some a ∧ a < q.memory.length ∧
      q.memory.getD a 0 = v ∧ ∀ j, j ≠ a → q.memory.getD j 0 = p.memory.getD j 0 := by
  cases m with
  | Immediate =>
    simp only [Program.set, Program.readCell, Program.writeCell] at h
    rw [Except.ok.injEq] at h
    subst h
    refine ⟨rfl, rfl, rfl, rfl, rfl, ?_, ?_, idx, rfl, ?_, ?_, ?_⟩
    · rw [List.length_set]
      exact le_trans (le_length_growTo _ _) (le_length_growTo _ _)
    · rw [List.length_set]
      exact lt_of_lt_of_le (lt_length_growTo _ _) (le_length_growTo _ _)
    · rw [List.length_set]
      exact lt_length_growTo _ _
    · exact getD_set_self (lt_length_growTo _ _) _
    · intro j hj
      rw [getD_set_ne (fun hx => hj hx.symm), growTo_getD, growTo_getD]
  | Positional =>
    simp only [Program.set, Program.readCell, Program.writeCell] at h
    split at h
    · cases h
    · rename_i hw
      rw [Except.ok.injEq] at h
      subst h
      refine ⟨rfl, rfl, rfl, rfl, rfl, ?_, ?_,
        ((growTo p.memory idx).getD idx 0).toNat, ?_, ?_, ?_, ?_⟩
      · rw [List.length_set]
        exact le_trans (le_length_growTo _ _) (le_length_growTo _ _)
      · rw [List.length_set]
        exact lt_of_lt_of_le (lt_length_growTo _ _) (le_length_growTo _ _)
      · simp only [Program.resolveAddr]
        rw [if_neg hw]
      · rw [List.length_set]
        exact lt_length_growTo _ _
      · exact getD_set_self (lt_length_growTo _ _) _
      · intro j hj
        rw [getD_set_ne (fun hx => hj hx.symm), growTo_getD, growTo_getD]
  | Relative =>
    simp only [Program.set, Program.readCell, Program.writeCell] at h
    split at h
    · cases h
    · rename_i hw
      rw [Except.ok.injEq] at h
      subst h
      refine ⟨rfl, rfl, rfl, rfl, rfl, ?_, ?_,
        (p.relative_base + (growTo p.memory idx).getD idx 0).toNat, ?_, ?_, ?_, ?_⟩
      · rw [List.length_set]
        exact le_trans (le_length_growTo _ _) (le_length_growTo _ _)
      · rw [List.length_set]
        exact lt_of_lt_of_le (lt_length_growTo _ _) (le_length_growTo _ _)
      · simp only [Program.resolveAddr]
        rw [if_neg hw]
      · rw [List.length_set]
        exact lt_length_growTo _ _
      · exact getD_set_self (lt_length_growTo _ _) _
      · intro j hj
        rw [getD_set_ne (fun hx => hj hx.symm), growTo_getD, growTo_getD]

lemma get_error {p : Program} {idx : Nat} {m : ParameterMode} {e : VmError}
    (h : p.get idx m = Except.error e) :
    e = VmError.UnderflowError ∧ p.resolveAddr idx m = none := by
  cases m with
  | Immediate =>
    simp only [Program.get, Program.readCell] at h
    cases h
  | Positional =>
    simp only [Program.get, Program.readCell] at h
    split at h
    · rename_i hw
      rw [Except.error.injEq] at h
      subst h
      refine ⟨rfl, ?_⟩
      simp only [Program.resolveAddr]
      rw [if_pos hw]
    · cases h
  | Relative =>
    simp only [Program.get, Program.readCell] at h
    split at h
    · rename_i hw
      rw [Except.error.injEq] at h
      subst h
      refine ⟨rfl, ?_⟩
      simp only [Program.resolveAddr]
      rw [if_pos hw]
    · cases h

lemma get_of_resolve_none {p : Program} {idx : Nat} {m : ParameterMode}
    (h : p.resolveAddr idx m = none) :
    p.get idx m = Except.error VmError.UnderflowError := by
  cases m with
  | Immediate => cases h
  | Positional =>
    simp only [Program.resolveAddr] at h
    simp only [Program.get, Program.readCell]
    split
    · rfl
    · rename_i hw
      rw [if_neg hw] at h
      cases h
  | Relative =>
    simp only [Program.resolveAddr] at h
    simp only [Program.get, Program.readCell]
    split
    · rfl
    · rename_i hw
      rw [if_neg hw] at h
      cases h

lemma set_of_resolve_none {p : Program} {idx : Nat} {v : Int} {m : ParameterMode}
    (h : p.resolveAddr idx m = none) :
    p.set idx v m = Except.error VmError.UnderflowError := by
  cases m with
  | Immediate => cases h
  | Positional =>
    simp only [Program.resolveAddr] at h
    simp only [Program.set, Program.readCell]
    split
    · rfl
    · rename_i hw
      rw [if_neg hw] at h
      cases h
  | Relative =>
    simp only [Program.resolveAddr] at h
    simp only [Program.set, Program.readCell]
    split
    · rfl
    · rename_i hw
      rw [if_neg hw] at h
      cases h

lemma get_of_resolve_some {p : Program} {idx : Nat} {m : ParameterMode} {a : Nat}
    (h : p.resolveAddr idx m = some a) :
    ∃ qv, p.get idx m = Except.ok qv := by
  cases m with
  | Immediate => exact ⟨_, rfl⟩
  | Positional =>
    simp only [Program.resolveAddr] at h
    split at h
    · cases h
    · rename_i hw
      simp only [Program.get, Program.readCell]
      rw [if_neg hw]
      exact ⟨_, rfl⟩
  | Relative =>
    simp only [Program.resolveAddr] at h
    split at h
    · cases h
    · rename_i hw
      simp only [Program.get, Program.readCell]
      rw [if_neg hw]
      exact ⟨_, rfl⟩

lemma set_of_resolve_some {p : Program} {idx : Nat} {v : Int} {m : ParameterMode} {a : Nat}
    (h : p.resolveAddr idx m = some a) :
    ∃ q, p.set idx v m = Except.ok q := by
  cases m with
  | Immediate => exact ⟨_, rfl⟩
  | Positional =>
    simp only [Program.resolveAddr] at h
    split at h
    · cases h
    · rename_i hw
      simp only [Program.set, Program.readCell]
      rw [if_neg hw]
      exact ⟨_, rfl⟩
  | Relative =>
    simp only [Program.resolveAddr] at h
    split at h
    · cases h
    · rename_i hw
      simp only [Program.set, Program.readCell]
      rw [if_neg hw]
      exact ⟨_, rfl⟩

lemma performBin_some {p p3 : Program} {f : Int → Int → Int} {m1 m2 m3 : ParameterMode}
    (h : p.performBin f m1 m2 m3 = some p3) :
    p3.instruction_pointer = p.instruction_pointer ∧
    p3.relative_base = p.relative_base ∧
    p3.return_code = p.return_code ∧
    p3.input_buffer = p.input_buffer ∧
    p3.crashed = p.crashed ∧
    ∃ a, p.resolveAddr (p.instruction_pointer + 3) m3 = some a ∧
      a < p3.memory.length ∧
      ∀ j, j ≠ a → p3.memory.getD j 0 = p.memory.getD j 0 := by
  unfold Program.performBin at h
  split at h
  · cases h
  · rename_i pv1 heq1
    split at h
    · cases h
    · rename_i pv2 heq2
      split at h
      · cases h
      · rename_i p3x heq3
        rw [Option.some.injEq] at h
        subst h
        obtain ⟨ip1, rb1, rc1, ib1, cr1, gd1, -, -, -⟩ := get_ok heq1
        obtain ⟨ip2, rb2, rc2, ib2, cr2, gd2, -, -, -⟩ := get_ok heq2
        obtain ⟨ip3, rb3, rc3, ib3, cr3, -, -, a, hres, hlt, -, hframe⟩ := set_ok heq3
        rw [ip2, ip1] at hres
        have hcongr : pv2.1.resolveAddr (p.instruction_pointer + 3) m3
            = p.resolveAddr (p.instruction_pointer + 3) m3 :=
          resolveAddr_congr (by rw [rb2, rb1]) (fun j => by rw [gd2 j, gd1 j]) _ _
        rw [hcongr] at hres
        refine ⟨by rw [ip3, ip2, ip1], by rw [rb3, rb2, rb1], by rw [rc3, rc2, rc1],
          by rw [ib3, ib2, ib1], by rw [cr3, cr2, cr1], a, hres, hlt, ?_⟩
        intro j hj
        rw [hframe j hj, gd2 j, gd1 j]

lemma performJump_facts (p : Program) (nz : Bool) (m1 m2 : ParameterMode) :
    (p.performJump nz m1 m2).1.return_code = p.return_code ∧
    ((p.performJump nz m1 m2).2 = State.Running ∨
      ((p.performJump nz m1 m2).2 = State.Crashed ∧
        (p.performJump nz m1 m2).1 = crash p)) := by
  unfold Program.performJump
  split
  · exact ⟨rfl, Or.inr ⟨rfl, rfl⟩⟩
  · rename_i pv1 heq1
    obtain ⟨-, -, rc1, -, -, -, -, -, -⟩ := get_ok heq1
    split
    · split
      · exact ⟨rfl, Or.inr ⟨rfl, rfl⟩⟩
      · rename_i pv2 heq2
        obtain ⟨-, -, rc2, -, -, -, -, -, -⟩ := get_ok heq2
        split
        · exact ⟨rfl, Or.inr ⟨rfl, rfl⟩⟩
        · exact ⟨by rw [rc2, rc1], Or.inl rfl⟩
    · exact ⟨rc1, Or.inl rfl⟩

lemma step_return_code {p q : Program} {s : State} (hps : p.step = (q, s)) :
    q.return_code = Option.or s.emitted p.return_code := by
  unfold Program.step at hps
  split at hps
  · rw [Prod.mk.injEq] at hps
    obtain ⟨h1, h2⟩ := hps
    subst h1
    subst h2
    rfl
  · split at hps
    -- decode failure
    · rw [Prod.mk.injEq] at hps
      obtain ⟨h1, h2⟩ := hps
      subst h1
      subst h2
      rfl
    -- Halt
    · rw [Prod.mk.injEq] at hps
      obtain ⟨h1, h2⟩ := hps
      subst h1
      subst h2
      rfl
    -- Add
    · split at hps
      · rw [Prod.mk.injEq] at hps
        obtain ⟨h1, h2⟩ := hps
        subst h1
        subst h2
        rfl
      · rename_i p3 heq
        rw [Prod.mk.injEq] at hps
        obtain ⟨h1, h2⟩ := hps
        subst h1
        subst h2
        obtain ⟨-, -, rc3, -, -, -⟩ := performBin_some heq
        simpa [advance, State.emitted, Option.none_or] using rc3
    -- Mult
    · split at hps
      · rw [Prod.mk.injEq] at hps
        obtain ⟨h1, h2⟩ := hps
        subst h1
        subst h2
        rfl
      · rename_i p3 heq
        rw [Prod.mk.injEq] at hps
        obtain ⟨h1, h2⟩ := hps
        subst h1
        subst h2
        obtain ⟨-, -, rc3, -, -, -⟩ := performBin_some heq
        simpa [advance, State.emitted, Option.none_or] using rc3
    -- Input
    · split at hps
      · rw [Prod.mk.injEq] at hps
        obtain ⟨h1, h2⟩ := hps
        subst h1
        subst h2
        rfl
      · split at hps
        · rw [Prod.mk.injEq] at hps
          obtain ⟨h1, h2⟩ := hps
          subst h1
          subst h2
          rfl
        · rename_i p2 heq
          rw [Prod.mk.injEq] at hps
          obtain ⟨h1, h2⟩ := hps
          subst h1
          subst h2
          obtain ⟨-, -, rc2, -, -, -, -, -⟩ := set_ok heq
          simpa [advance, State.emitted, Option.none_or] using rc2
    -- Output
    · split at hps
      · rw [Prod.mk.injEq] at hps
        obtain ⟨h1, h2⟩ := hps
        subst h1
        subst h2
        rfl
      · rename_i pv heq
        split at hps
        · rw [Prod.mk.injEq] at hps
          obtain ⟨h1, h2⟩ := hps
          subst h1
          subst h2
          simp [advance, State.emitted, Option.or_some]
        · rw [Prod.mk.injEq] at hps
          obtain ⟨h1, h2⟩ := hps
          subst h1
          subst h2
          simp [advance, State.emitted, Option.or_some]
    -- JumpIfTrue
    · rename_i m1 m2 hinstr
      have hf := performJump_facts p true m1 m2
      rw [hps] at hf
      obtain ⟨hrc, hcase⟩ := hf
      rcases hcase with h | ⟨h, -⟩ <;> subst h <;>
        simpa [State.emitted, Option.none_or] using hrc
    -- JumpIfFalse
    · rename_i m1 m2 hinstr
      have hf := performJump_facts p false m1 m2
      rw [hps] at hf
      obtain ⟨hrc, hcase⟩ := hf
      rcases hcase with h | ⟨h, -⟩ <;> subst h <;>
        simpa [State.emitted, Option.none_or] using hrc
    -- LessThan
    · split at hps
      · rw [Prod.mk.injEq] at hps
        obtain ⟨h1, h2⟩ := hps
        subst h1
        subst h2
        rfl
      · rename_i p3 heq
        rw [Prod.mk.injEq] at hps
        obtain ⟨h1, h2⟩ := hps
        subst h1
        subst h2
        obtain ⟨-, -, rc3, -, -, -⟩ := performBin_some heq
        simpa [advance, State.emitted, Option.none_or] using rc3
    -- Equals
    · split at hps
      · rw [Prod.mk.injEq] at hps
        obtain ⟨h1, h2⟩ := hps
        subst h1
        subst h2
        rfl
      · rename_i p3 heq
        rw [Prod.mk.injEq] at hps
        obtain ⟨h1, h2⟩ := hps
        subst h1
        subst h2
        obtain ⟨-, -, rc3, -, -, -⟩ := performBin_some heq
        simpa [advance, State.emitted, Option.none_or] using rc3
    -- RelativeBaseAdjust
    · split at hps
      · rw [Prod.mk.injEq] at hps
        obtain ⟨h1, h2⟩ := hps
        subst h1
        subst h2
        rfl
      · rename_i pv heq
        rw [Prod.mk.injEq] at hps
        obtain ⟨h1, h2⟩ := hps
        subst h1
        subst h2
        obtain ⟨-, -, rc1, -, -, -, -, -, -⟩ := get_ok heq
        simpa [advance, State.emitted, Option.none_or] using rc1

lemma step_crashed_flag {p q : Program} {s : State} (hps : p.step = (q, s))
    (hs : s = State.Crashed) : q.crashed = true := by
  subst hs
  unfold Program.step at hps
  split at hps
  · rename_i hc
    rw [Prod.mk.injEq] at hps
    obtain ⟨h1, -⟩ := hps
    subst h1
    exact hc
  · split at hps
    · rw [Prod.mk.injEq] at hps
      obtain ⟨h1, -⟩ := hps
      subst h1
      rfl
    · rw [Prod.mk.injEq] at hps
      obtain ⟨-, h2⟩ := hps
      cases h2
    · split at hps
      · rw [Prod.mk.injEq] at hps
        obtain ⟨h1, -⟩ := hps
        subst h1
        rfl
      · rw [Prod.mk.injEq] at hps
        obtain ⟨-, h2⟩ := hps
        cases h2
    · split at hps
      · rw [Prod.mk.injEq] at hps
        obtain ⟨h1, -⟩ := hps
        subst h1
        rfl
      · rw [Prod.mk.injEq] at hps
        obtain ⟨-, h2⟩ := hps
        cases h2
    · split at hps
      · rw [Prod.mk.injEq] at hps
        obtain ⟨-, h2⟩ := hps
        cases h2
      · split at hps
        · rw [Prod.mk.injEq] at hps
          obtain ⟨h1, -⟩ := hps
          subst h1
          rfl
        · rw [Prod.mk.injEq] at hps
          obtain ⟨-, h2⟩ := hps
          cases h2
    · split at hps
      · rw [Prod.mk.injEq] at hps
        obtain ⟨h1, -⟩ := hps
        subst h1
        rfl
      · split at hps
        · rw [Prod.mk.injEq] at hps
          obtain ⟨-, h2⟩ := hps
          cases h2
        · rw [Prod.mk.injEq] at hps
          obtain ⟨-, h2⟩ := hps
          cases h2
    · rename_i m1 m2 hinstr
      have hf := performJump_facts p true m1 m2
      rw [hps] at hf
      obtain ⟨-, hcase⟩ := hf
      rcases hcase with h | ⟨-, h⟩
      · cases h
      · subst h
        rfl
    · rename_i m1 m2 hinstr
      have hf := performJump_facts p false m1 m2
      rw [hps] at hf
      obtain ⟨-, hcase⟩ := hf
      rcases hcase with h | ⟨-, h⟩
      · cases h
      · subst h
        rfl
    · split at hps
      · rw [Prod.mk.injEq] at hps
        obtain ⟨h1, -⟩ := hps
        subst h1
        rfl
      · rw [Prod.mk.injEq] at hps
        obtain ⟨-, h2⟩ := hps
        cases h2
    · split at hps
      · rw [Prod.mk.injEq] at hps
        obtain ⟨h1, -⟩ := hps
        subst h1
        rfl
      · rw [Prod.mk.injEq] at hps
        obtain ⟨-, h2⟩ := hps
        cases h2
    · split at hps
      · rw [Prod.mk.injEq] at hps
        obtain ⟨h1, -⟩ := hps
        subst h1
        rfl
      · rw [Prod.mk.injEq] at hps
        obtain ⟨-, h2⟩ := hps
        cases h2

/-- Claim C1: a VM whose current instruction is Input and whose input queue
is empty does not consume the instruction: step returns the machine itself
together with AwaitingInput, so memory, instruction pointer and relative
base are untouched and repeated calls keep reporting the same state. -/
theorem C1_input_starvation_suspends (p : Program) (m1 : ParameterMode)
    (hc : p.crashed = false)
    (hi : p.current_instruction = some (Instruction.Input m1))
    (hb : p.input_buffer = []) :
    p.step = (p, State.AwaitingInput) := by
  unfold Program.step
  rw [if_neg (by simp [hc]), hi, hb]

/-- Witness for C1 at the program `3,0,99` with an empty queue. -/
theorem C1_input_starvation_suspends_w :
    Program.step ⟨[3, 0, 99], 0, 0, none, [], false⟩ =
      (⟨[3, 0, 99], 0, 0, none, [], false⟩, State.AwaitingInput) :=
  C1_input_starvation_suspends _ ParameterMode.Positional rfl (by decide) rfl

/-- Claim C2: the executor is a total function and every failure is encoded
in the returned state: a crashed machine steps to itself reporting Crashed
(Crashed is sticky and mutation-free), a decode failure — unknown opcode
digit, unknown mode digit, or instruction pointer beyond memory — only sets
the crashed flag and reports Crashed, and any step that reports Crashed
leaves the machine flagged as crashed. -/
theorem C2_all_failure_is_crashed (p : Program) :
    (p.crashed = true → p.step = (p, State.Crashed)) ∧
    (p.crashed = false → p.current_instruction = none →
      p.step = ({ p with crashed := true }, State.Crashed)) ∧
    (∀ q s, p.step = (q, s) → s = State.Crashed → q.crashed = true) := by
  refine ⟨?_, ?_, ?_⟩
  · intro hc
    unfold Program.step
    rw [if_pos hc]
  · intro hc hnone
    unfold Program.step
    rw [if_neg (by simp [hc]), hnone]
    rfl
  · intro q s hps hs
    exact step_crashed_flag hps hs

/-- Witness for C2: an already-crashed machine, an unknown opcode 77, and a
pointer beyond memory, plus the sticky flag fact. -/
theorem C2_all_failure_is_crashed_w :
    Program.step ⟨[99], 0, 0, none, [], true⟩ =
      (⟨[99], 0, 0, none, [], true⟩, State.Crashed) ∧
    Program.step ⟨[77], 0, 0, none, [], false⟩ =
      (⟨[77], 0, 0, none, [], true⟩, State.Crashed) ∧
    Program.step ⟨[], 0, 0, none, [], false⟩ =
      (⟨[], 0, 0, none, [], true⟩, State.Crashed) ∧
    (⟨[77], 0, 0, none, [], true⟩ : Program).crashed = true :=
  ⟨(C2_all_failure_is_crashed _).1 rfl,
   (C2_all_failure_is_crashed _).2.1 rfl (by decide),
   (C2_all_failure_is_crashed _).2.1 rfl rfl,
   (C2_all_failure_is_crashed ⟨[77], 0, 0, none, [], false⟩).2.2
     ⟨[77], 0, 0, none, [], true⟩ State.Crashed (by decide) rfl⟩

/-- Claim C8: `is_terminated` is a pure peek on the machine value — true
exactly when the instruction word at the instruction pointer decodes as
Halt; as a function of the unmodified machine it cannot mutate memory,
pointer, relative base or input queue, and repeated calls agree. -/
theorem C8_is_terminated_iff_halt (p : Program) :
    p.is_terminated = true ↔ p.current_instruction = some Instruction.Halt := by
  cases hci : p.current_instruction with
  | none => simp [Program.is_terminated, hci]
  | some i => cases i <;> simp [Program.is_terminated, hci]

/-- Claim C10: decoding selects the opcode by the Euclidean remainder of
the word modulo 100 (and mode digits by Euclidean remainders of the
truncated quotients by 10), so every word — also a negative one such as
`-1` — whose Euclidean remainder is 99 decodes as Halt, and
`is_terminated` reports true when such a word sits at the pointer. -/
theorem C10_negative_halt_decode :
    (∀ w : Int, w.emod 100 = 99 → Instruction.parse w = some Instruction.Halt) ∧
    (∀ w : Int, w.emod 100 = 4 →
      Instruction.parse w =
        (ParameterMode.of ((w.tdiv 100).emod 10)).map Instruction.Output) ∧
    (∀ (p : Program) (w : Int), p.memory.get? p.instruction_pointer = some w →
      w.emod 100 = 99 → p.is_terminated = true) := by
  have hhalt : ∀ w : Int, w.emod 100 = 99 → Instruction.parse w = some Instruction.Halt := by
    intro w h
    simp [Instruction.parse, h]
  refine ⟨hhalt, ?_, ?_⟩
  · intro w h
    simp [Instruction.parse, Instruction.parse_one, h]
  · intro p w hw h99
    unfold Program.is_terminated Program.current_instruction
    rw [hw]
    dsimp only [Option.bind]
    rw [hhalt w h99]

/-- Witness for C10 at the word `-1`. -/
theorem C10_negative_halt_decode_w :
    Instruction.parse (-1) = some Instruction.Halt ∧
    (⟨[-1], 0, 0, none, [], false⟩ : Program).is_terminated = true :=
  ⟨C10_negative_halt_decode.1 (-1) (by decide),
   C10_negative_halt_decode.2.2 ⟨[-1], 0, 0, none, [], false⟩ (-1) rfl (by decide)⟩

/-- Claim C3: executing an Output instruction reads its one operand,
advances the pointer by 2, then inspects the instruction at the new
pointer: an Input instruction there makes the step report
OutputAwaitingInput(value), anything else Output(value); the result is
never the internal Running state. -/
theorem C3_output_lookahead (p : Program) (m1 : ParameterMode) (pv : Program × Int)
    (hc : p.crashed = false)
    (hi : p.current_instruction = some (Instruction.Output m1))
    (hget : p.get (p.instruction_pointer + 1) m1 = Except.ok pv) :
    (p.step).1 = advance { pv.1 with return_code := some pv.2 } 2 ∧
    (p.step).1.instruction_pointer = p.instruction_pointer + 2 ∧
    ((p.step).2 = State.OutputAwaitingInput pv.2 ∨ (p.step).2 = State.Output pv.2) ∧
    ((p.step).2 = State.OutputAwaitingInput pv.2 ↔
      ∃ m, ((p.step).1).current_instruction = some (Instruction.Input m)) ∧
    (p.step).2 ≠ State.Running := by
  obtain ⟨ip1, -, -, -, -, -, -, -, -⟩ := get_ok hget
  have hipPR : (advance { pv.1 with return_code := some pv.2 } 2).instruction_pointer
      = p.instruction_pointer + 2 := by
    simp [advance, ip1]
  have hstep1 : p.step =
      (match p.get (p.instruction_pointer + 1) m1 with
       | Except.error _ => (crash p, State.Crashed)
       | Except.ok pv =>
         match (advance { pv.1 with return_code := some pv.2 } 2).current_instruction with
         | some (Instruction.Input _) =>
           (advance { pv.1 with return_code := some pv.2 } 2, State.OutputAwaitingInput pv.2)
         | _ => (advance { pv.1 with return_code := some pv.2 } 2, State.Output pv.2)) := by
    unfold Program.step
    rw [if_neg (by simp [hc]), hi]
  rw [hget] at hstep1
  have hstep2 : p.step =
      (match (advance { pv.1 with return_code := some pv.2 } 2).current_instruction with
       | some (Instruction.Input _) =>
         (advance { pv.1 with return_code := some pv.2 } 2, State.OutputAwaitingInput pv.2)
       | _ => (advance { pv.1 with return_code := some pv.2 } 2, State.Output pv.2)) := hstep1
  cases hnext : (advance { pv.1 with return_code := some pv.2 } 2).current_instruction with
  | none =>
    have hstep : p.step
        = (advance { pv.1 with return_code := some pv.2 } 2, State.Output pv.2) := by
      rw [hstep2, hnext]
    refine ⟨by simp [hstep], by simp [hstep, hipPR], Or.inr (by simp [hstep]), ?_,
      by simp [hstep]⟩
    constructor
    · intro h
      simp [hstep] at h
    · rintro ⟨m, hm⟩
      simp [hstep, hnext] at hm
  | some i =>
    cases i
    case Input m =>
      have hstep : p.step
          = (advance { pv.1 with return_code := some pv.2 } 2,
             State.OutputAwaitingInput pv.2) := by
        rw [hstep2, hnext]
      refine ⟨by simp [hstep], by simp [hstep, hipPR], Or.inl (by simp [hstep]), ?_,
        by simp [hstep]⟩
      constructor
      · intro h
        exact ⟨m, by simp [hstep, hnext]⟩
      · intro h
        simp [hstep]
    all_goals (
      have hstep : p.step
          = (advance { pv.1 with return_code := some pv.2 } 2, State.Output pv.2) := by
        rw [hstep2, hnext];
      refine ⟨by simp [hstep], by simp [hstep, hipPR], Or.inr (by simp [hstep]), ?_,
        by simp [hstep]⟩;
      constructor;
      · intro h
        simp [hstep] at h
      · rintro ⟨m, hm⟩
        simp [hstep, hnext] at hm)

/-- Witness for C3 at the program `104,7,3,0,99`: output of 7 immediately
followed by an Input instruction. -/
theorem C3_output_lookahead_w :
    (Program.step ⟨[104, 7, 3, 0, 99], 0, 0, none, [], false⟩).1
      = advance { (⟨[104, 7, 3, 0, 99], 0, 0, none, [], false⟩ : Program) with
          return_code := some 7 } 2 ∧
    (Program.step ⟨[104, 7, 3, 0, 99], 0, 0, none, [], false⟩).1.instruction_pointer
      = 0 + 2 ∧
    ((Program.step ⟨[104, 7, 3, 0, 99], 0, 0, none, [], false⟩).2
        = State.OutputAwaitingInput 7 ∨
      (Program.step ⟨[104, 7, 3, 0, 99], 0, 0, none, [], false⟩).2 = State.Output 7) ∧
    ((Program.step ⟨[104, 7, 3, 0, 99], 0, 0, none, [], false⟩).2
        = State.OutputAwaitingInput 7 ↔
      ∃ m, ((Program.step ⟨[104, 7, 3, 0, 99], 0, 0, none, [], false⟩).1).current_instruction
        = some (Instruction.Input m)) ∧
    (Program.step ⟨[104, 7, 3, 0, 99], 0, 0, none, [], false⟩).2 ≠ State.Running :=
  C3_output_lookahead ⟨[104, 7, 3, 0, 99], 0, 0, none, [], false⟩
    ParameterMode.Immediate (⟨[104, 7, 3, 0, 99], 0, 0, none, [], false⟩, 7)
    rfl (by decide) rfl

/-- Claim C4: a Positional or Relative parameter whose resolved address is
a negative index fails with UnderflowError, and the step surfaces it as the
terminal Crashed state while keeping the pre-step memory, pointer and base
(no growth, no wrapping): shown for the read path (Output) and the write
path (Input with a queued value).  Only Positional and Relative parameters
can resolve to `none`, so the hypotheses restrict to exactly those. -/
theorem C4_underflow_crashes (p : Program) (m1 : ParameterMode)
    (hc : p.crashed = false) :
    (p.current_instruction = some (Instruction.Output m1) →
      p.resolveAddr (p.instruction_pointer + 1) m1 = none →
      p.get (p.instruction_pointer + 1) m1 = Except.error VmError.UnderflowError ∧
      p.step = ({ p with crashed := true }, State.Crashed)) ∧
    (∀ x rest, p.current_instruction = some (Instruction.Input m1) →
      p.input_buffer = x :: rest →
      p.resolveAddr (p.instruction_pointer + 1) m1 = none →
      Program.set { p with input_buffer := rest } (p.instruction_pointer + 1) x m1
        = Except.error VmError.UnderflowError ∧
      p.step = ({ p with crashed := true }, State.Crashed)) := by
  constructor
  · intro hi hres
    have hget := get_of_resolve_none hres
    refine ⟨hget, ?_⟩
    have hstep1 : p.step =
        (match p.get (p.instruction_pointer + 1) m1 with
         | Except.error _ => (crash p, State.Crashed)
         | Except.ok pv =>
           match (advance { pv.1 with return_code := some pv.2 } 2).current_instruction with
           | some (Instruction.Input _) =>
             (advance { pv.1 with return_code := some pv.2 } 2, State.OutputAwaitingInput pv.2)
           | _ => (advance { pv.1 with return_code := some pv.2 } 2, State.Output pv.2)) := by
      unfold Program.step
      rw [if_neg (by simp [hc]), hi]
    rw [hget] at hstep1
    exact hstep1
  · intro x rest hi hb hres
    have hres2 : Program.resolveAddr { p with input_buffer := rest }
        (p.instruction_pointer + 1) m1 = none := hres
    have hset := set_of_resolve_none (v := x) hres2
    refine ⟨hset, ?_⟩
    have hstep1 : p.step =
        (match p.input_buffer with
         | [] => (p, State.AwaitingInput)
         | x :: rest =>
           match Program.set { p with input_buffer := rest } (p.instruction_pointer + 1) x m1 with
           | Except.error _ => (crash p, State.Crashed)
           | Except.ok p2 => (advance p2 2, State.Running)) := by
      unfold Program.step
      rw [if_neg (by simp [hc]), hi]
    rw [hb] at hstep1
    have hstep2 : p.step =
        (match Program.set { p with input_buffer := rest } (p.instruction_pointer + 1) x m1 with
         | Except.error _ => (crash p, State.Crashed)
         | Except.ok p2 => (advance p2 2, State.Running)) := hstep1
    rw [hset] at hstep2
    exact hstep2

/-- Witness for C4: `4,-5,99` underflows on a Positional read,
`3,-2,99` with input 7 underflows on a Positional write. -/
theorem C4_underflow_crashes_w :
    Program.get ⟨[4, -5, 99], 0, 0, none, [], false⟩ (0 + 1) ParameterMode.Positional
      = Except.error VmError.UnderflowError ∧
    Program.step ⟨[4, -5, 99], 0, 0, none, [], false⟩
      = (⟨[4, -5, 99], 0, 0, none, [], true⟩, State.Crashed) ∧
    Program.set ⟨[3, -2, 99], 0, 0, none, [], false⟩ (0 + 1) 7 ParameterMode.Positional
      = Except.error VmError.UnderflowError ∧
    Program.step ⟨[3, -2, 99], 0, 0, none, [7], false⟩
      = (⟨[3, -2, 99], 0, 0, none, [7], true⟩, State.Crashed) := by
  refine ⟨?_, ?_, ?_, ?_⟩
  · exact ((C4_underflow_crashes ⟨[4, -5, 99], 0, 0, none, [], false⟩
      ParameterMode.Positional rfl).1 (by decide) (by decide)).1
  · exact ((C4_underflow_crashes ⟨[4, -5, 99], 0, 0, none, [], false⟩
      ParameterMode.Positional rfl).1 (by decide) (by decide)).2
  · exact ((C4_underflow_crashes ⟨[3, -2, 99], 0, 0, none, [7], false⟩
      ParameterMode.Positional rfl).2 7 [] (by decide) rfl (by decide)).1
  · exact ((C4_underflow_crashes ⟨[3, -2, 99], 0, 0, none, [7], false⟩
      ParameterMode.Positional rfl).2 7 [] (by decide) rfl (by decide)).2

/-- Claim C5: every read and every write whose parameter resolves to a
non-negative address succeeds, growing the memory with zero padding up to
and including that address when it lies at or beyond the current length:
the read returns the cell's getD value (0 for a previously untouched
address), the write lands exactly at the resolved address, every other cell
keeps its value, and the operand word of the instruction itself is covered
by the same growth (its index ends up inside memory too). -/
theorem C5_grow_on_demand (p : Program) (idx : Nat) (m : ParameterMode) (a : Nat) (v : Int)
    (hres : p.resolveAddr idx m = some a) :
    (∃ q vr, p.get idx m = Except.ok (q, vr) ∧ vr = p.memory.getD a 0 ∧
      (p.memory.length ≤ a → vr = 0) ∧
      a < q.memory.length ∧ idx < q.memory.length ∧
      ∀ j, q.memory.getD j 0 = p.memory.getD j 0) ∧
    (∃ q, p.set idx v m = Except.ok q ∧
      a < q.memory.length ∧ idx < q.memory.length ∧
      q.memory.getD a 0 = v ∧
      ∀ j, j ≠ a → q.memory.getD j 0 = p.memory.getD j 0) := by
  constructor
  · obtain ⟨qv, hok⟩ := get_of_resolve_some hres
    obtain ⟨q, vr⟩ := qv
    obtain ⟨-, -, -, -, -, gd, -, hidx, a2, hres2, hval, halt⟩ := get_ok hok
    rw [hres] at hres2
    injection hres2 with ha2
    subst ha2
    refine ⟨q, vr, hok, hval, ?_, halt, hidx, gd⟩
    intro hlen
    rw [hval, List.getD_eq_default _ _ hlen]
  · obtain ⟨q, hok⟩ := set_of_resolve_some (v := v) hres
    obtain ⟨-, -, -, -, -, -, hidx, a2, hres2, halt, hva, hframe⟩ := set_ok hok
    rw [hres] at hres2
    injection hres2 with ha2
    subst ha2
    exact ⟨q, hok, halt, hidx, hva, hframe⟩

/-- Witness for C5: in memory `[3]`, a Positional parameter at word 0
resolves to address 3, beyond the current length. -/
theorem C5_grow_on_demand_w :
    (∃ q vr, Program.get ⟨[3], 0, 0, none, [], false⟩ 0 ParameterMode.Positional
        = Except.ok (q, vr) ∧ vr = ([3] : List Int).getD 3 0 ∧
      (([3] : List Int).length ≤ 3 → vr = 0) ∧
      3 < q.memory.length ∧ 0 < q.memory.length ∧
      ∀ j, q.memory.getD j 0 = ([3] : List Int).getD j 0) ∧
    (∃ q, Program.set ⟨[3], 0, 0, none, [], false⟩ 0 5 ParameterMode.Positional
        = Except.ok q ∧
      3 < q.memory.length ∧ 0 < q.memory.length ∧
      q.memory.getD 3 0 = 5 ∧
      ∀ j, j ≠ 3 → q.memory.getD j 0 = ([3] : List Int).getD j 0) :=
  C5_grow_on_demand ⟨[3], 0, 0, none, [], false⟩ 0 ParameterMode.Positional 3 5 (by decide)

/-- Claim C6: a 4-parameter arithmetic instruction (Add, Multiply,
LessThan, Equals) that steps without failure (reports Running) advances the
pointer by exactly 4 and modifies memory only at the resolved write
address: every other cell keeps its getD value. -/
theorem C6_arith_frame (p : Program) (i : Instruction)
    (f : Int → Int → Int) (m1 m2 m3 : ParameterMode)
    (hc : p.crashed = false)
    (hi : p.current_instruction = some i)
    (hop : arithOp i = some (f, m1, m2, m3))
    (hs : (p.step).2 = State.Running) :
    (p.step).1.instruction_pointer = p.instruction_pointer + 4 ∧
    ∃ a, p.resolveAddr (p.instruction_pointer + 3) m3 = some a ∧
      ∀ j, j ≠ a → (p.step).1.memory.getD j 0 = p.memory.getD j 0 := by
  have finish : ∀ (g : Int → Int → Int) (mA mB mC : ParameterMode),
      p.step = (match p.performBin g mA mB mC with
        | none => (crash p, State.Crashed)
        | some p3 => (advance p3 4, State.Running)) →
      (p.step).1.instruction_pointer = p.instruction_pointer + 4 ∧
      ∃ a, p.resolveAddr (p.instruction_pointer + 3) mC = some a ∧
        ∀ j, j ≠ a → (p.step).1.memory.getD j 0 = p.memory.getD j 0 := by
    intro g mA mB mC hstep1
    rcases hpb : p.performBin g mA mB mC with _ | p3
    · rw [hpb] at hstep1
      have hcr : p.step = (crash p, State.Crashed) := hstep1
      rw [hcr] at hs
      exact absurd hs (by simp)
    · rw [hpb] at hstep1
      have hstep : p.step = (advance p3 4, State.Running) := hstep1
      obtain ⟨ip3, -, -, -, -, a, hres, -, hframe⟩ := performBin_some hpb
      refine ⟨by simp [hstep, advance, ip3], a, hres, ?_⟩
      intro j hj
      rw [hstep]
      simpa [advance] using hframe j hj
  cases i
  case Halt => exact Option.noConfusion hop
  case Input m => exact Option.noConfusion hop
  case Output m => exact Option.noConfusion hop
  case JumpIfTrue mA mB => exact Option.noConfusion hop
  case JumpIfFalse mA mB => exact Option.noConfusion hop
  case RelativeBaseAdjust m => exact Option.noConfusion hop
  case Add mA mB mC =>
    simp only [arithOp, Option.some.injEq, Prod.mk.injEq] at hop
    obtain ⟨hf, h1, h2, h3⟩ := hop
    subst hf
    subst h1
    subst h2
    subst h3
    exact finish (fun a b => a + b) mA mB mC
      (by unfold Program.step; rw [if_neg (by simp [hc]), hi])
  case Mult mA mB mC =>
    simp only [arithOp, Option.some.injEq, Prod.mk.injEq] at hop
    obtain ⟨hf, h1, h2, h3⟩ := hop
    subst hf
    subst h1
    subst h2
    subst h3
    exact finish (fun a b => a * b) mA mB mC
      (by unfold Program.step; rw [if_neg (by simp [hc]), hi])
  case LessThan mA mB mC =>
    simp only [arithOp, Option.some.injEq, Prod.mk.injEq] at hop
    obtain ⟨hf, h1, h2, h3⟩ := hop
    subst hf
    subst h1
    subst h2
    subst h3
    exact finish (fun a b => if a < b then 1 else 0) mA mB mC
      (by unfold Program.step; rw [if_neg (by simp [hc]), hi])
  case Equals mA mB mC =>
    simp only [arithOp, Option.some.injEq, Prod.mk.injEq] at hop
    obtain ⟨hf, h1, h2, h3⟩ := hop
    subst hf
    subst h1
    subst h2
    subst h3
    exact finish (fun a b => if a = b then 1 else 0) mA mB mC
      (by unfold Program.step; rw [if_neg (by simp [hc]), hi])

/-- Witness for C6 at `1101,2,3,0,99`: Add writes 5 at address 0 and
advances the pointer to 4. -/
theorem C6_arith_frame_w :
    (Program.step ⟨[1101, 2, 3, 0, 99], 0, 0, none, [], false⟩).1.instruction_pointer
      = 0 + 4 ∧
    ∃ a, Program.resolveAddr ⟨[1101, 2, 3, 0, 99], 0, 0, none, [], false⟩ (0 + 3)
        ParameterMode.Positional = some a ∧
      ∀ j, j ≠ a →
        (Program.step ⟨[1101, 2, 3, 0, 99], 0, 0, none, [], false⟩).1.memory.getD j 0
          = ([1101, 2, 3, 0, 99] : List Int).getD j 0 :=
  C6_arith_frame ⟨[1101, 2, 3, 0, 99], 0, 0, none, [], false⟩
    (Instruction.Add ParameterMode.Immediate ParameterMode.Immediate ParameterMode.Positional)
    (fun a b => a + b) ParameterMode.Immediate ParameterMode.Immediate ParameterMode.Positional
    rfl (by decide) rfl (by decide)

lemma foldl_read_input_buffer (inputs : List Int) : ∀ p : Program,
    (inputs.foldl Program.read_input p).input_buffer = p.input_buffer ++ inputs := by
  induction inputs with
  | nil => intro p; simp
  | cons x xs ih =>
    intro p
    rw [List.foldl_cons, ih]
    simp [Program.read_input, List.append_assoc]

lemma foldl_read_input_rc (inputs : List Int) : ∀ p : Program,
    (inputs.foldl Program.read_input p).return_code = p.return_code := by
  induction inputs with
  | nil => intro p; rfl
  | cons x xs ih =>
    intro p
    rw [List.foldl_cons, ih]
    rfl

lemma run_loop_succ (p : Program) (n : Nat) (outs : List Int) :
    p.run_loop (n + 1) outs =
      match p.step with
      | (p1, State.Running) => p1.run_loop n outs
      | (p1, State.Output v) => p1.run_loop n (outs ++ [v])
      | (p1, State.OutputAwaitingInput v) => p1.run_loop n (outs ++ [v])
      | (p1, _) => (p1, outs) := rfl

lemma run_loop_return_code : ∀ (n : Nat) (p : Program) (outs : List Int) (z : Option Int),
    p.return_code = Option.or outs.getLast? z →
    ((p.run_loop n outs).1).return_code
      = Option.or ((p.run_loop n outs).2).getLast? z := by
  intro n
  induction n with
  | zero => intro p outs z h; exact h
  | succ n ih =>
    intro p outs z h
    rcases hps : p.step with ⟨p1, s⟩
    have hrc1 := step_return_code hps
    rw [run_loop_succ, hps]
    cases s with
    | Running => exact ih p1 outs z (hrc1.trans h)
    | Output v =>
      refine ih p1 (outs ++ [v]) z ?_
      rw [hrc1]
      simp [State.emitted, Option.or_some, List.getLast?_concat]
    | OutputAwaitingInput v =>
      refine ih p1 (outs ++ [v]) z ?_
      rw [hrc1]
      simp [State.emitted, Option.or_some, List.getLast?_concat]
    | AwaitingInput => exact hrc1.trans h
    | Done => exact hrc1.trans h
    | Crashed => exact hrc1.trans h

/-- Claim C7: `run` seeds the input queue by appending the given inputs in
order, drives the machine (collecting every output, stopping at Done,
Crashed or AwaitingInput within the given fuel), and returns the machine's
return code, which equals the last collected output value — or the pre-run
return code, `none` for a freshly constructed machine, when no output ever
occurred. -/
theorem C7_run_returns_last_output (p : Program) (inputs : List Int) (fuel : Nat) :
    (inputs.foldl Program.read_input p).input_buffer = p.input_buffer ++ inputs ∧
    (p.run inputs fuel).2.2
      = Option.or ((p.run inputs fuel).2.1).getLast? p.return_code := by
  refine ⟨foldl_read_input_buffer inputs p, ?_⟩
  exact run_loop_return_code fuel (inputs.foldl Program.read_input p) [] p.return_code
    (foldl_read_input_rc inputs p)

/-- Claim C9: constructing a VM from program text splits the single line on
commas and parses each token as a base-10 integer, left to right: every
token of the spec's shape (optional leading minus, then digits) whose value
fits the 64-bit cells parses to its value and is kept in order, every
malformed token is dropped from the parse without failing it, and the
machine starts with instruction pointer 0, relative base 0 and an empty
input queue. -/
theorem C9_from_str_parse (line : String) :
    (Program.from_str line).instruction_pointer = 0 ∧
    (Program.from_str line).relative_base = 0 ∧
    (Program.from_str line).input_buffer = [] ∧
    (Program.from_str line).memory = (line.splitOn ",").filterMap parseRadix10 ∧
    (∀ s v, specToken s = some v → i64Min ≤ v → v ≤ i64Max → parseRadix10 s = some v) ∧
    (∀ (s : String) (pre post : List String), parseRadix10 s = none →
      (pre ++ s :: post).filterMap parseRadix10
        = pre.filterMap parseRadix10 ++ post.filterMap parseRadix10) := by
  refine ⟨rfl, rfl, rfl, rfl, ?_, ?_⟩
  · intro s v hspec h1 h2
    unfold specToken at hspec
    unfold parseRadix10
    rcases hd : s.data with _ | ⟨c, cs⟩
    · rw [hd] at hspec
      exact Option.noConfusion hspec
    · rw [hd] at hspec
      have hspec2 : (if c = '-' then
            if cs ≠ [] ∧ cs.all Char.isDigit then some (-(digitsVal cs : Int)) else none
          else
            if (c :: cs).all Char.isDigit then some ((digitsVal (c :: cs) : Int)) else none)
          = some v := hspec
      show (if c = '+' then parseDigitsRange cs 1
        else if c = '-' then parseDigitsRange cs (-1)
        else parseDigitsRange (c :: cs) 1) = some v
      by_cases hm : c = '-'
      · rw [if_pos hm] at hspec2
        rw [if_neg (by rw [hm]; decide), if_pos hm]
        split at hspec2
        · rename_i hdig
          injection hspec2 with hv
          unfold parseDigitsRange
          rw [if_pos hdig]
          simp only [neg_one_mul]
          rw [hv]
          rw [if_pos ⟨h1, h2⟩]
        · exact Option.noConfusion hspec2
      · rw [if_neg hm] at hspec2
        split at hspec2
        · rename_i hdig
          injection hspec2 with hv
          have hp : ¬ c = '+' := by
            intro hp
            rw [List.all_cons, Bool.and_eq_true] at hdig
            obtain ⟨hc1, -⟩ := hdig
            rw [hp] at hc1
            exact absurd hc1 (by decide)
          rw [if_neg hp, if_neg hm]
          unfold parseDigitsRange
          rw [if_pos ⟨List.cons_ne_nil c cs, hdig⟩]
          simp only [one_mul]
          rw [hv]
          rw [if_pos ⟨h1, h2⟩]
        · exact Option.noConfusion hspec2
  · intro s pre post hnone
    rw [List.filterMap_append, List.filterMap_cons_none hnone]

/-- Witness for C9 at the line `104,-12,x,99` and the token `-12`. -/
theorem C9_from_str_parse_w :
    (Program.from_str "104,-12,x,99").instruction_pointer = 0 ∧
    (Program.from_str "104,-12,x,99").relative_base = 0 ∧
    (Program.from_str "104,-12,x,99").input_buffer = [] ∧
    (Program.from_str "104,-12,x,99").memory
      = ("104,-12,x,99".splitOn ",").filterMap parseRadix10 ∧
    parseRadix10 "-12" = some (-12) :=
  ⟨(C9_from_str_parse "104,-12,x,99").1,
   (C9_from_str_parse "104,-12,x,99").2.1,
   (C9_from_str_parse "104,-12,x,99").2.2.1,
   (C9_from_str_parse "104,-12,x,99").2.2.2.1,
   (C9_from_str_parse "104,-12,x,99").2.2.2.2.1 "-12" (-12) (by decide) (by decide) (by decide)⟩
